import Mathlib

/-! # tools/gn/command_gen.cc: the `gn gen` command

A shallow embedding of `BackgroundDoWrite`, `ItemResolvedCallback` and `RunGen`
and of the counter protocol they drive on the scheduler.

The bodies of `BackgroundDoWrite` and `ItemResolvedCallback` are embedded as the
lists of primitive operations (`Op`) they perform, in program order, together
with an interpreter (`execOp`) on an explicit state. A sequential run executes a
list to its end; the concurrent semantics (`step`) lets the main thread and every
scheduled job advance one operation at a time, in any order. `RunGen` is a
function of its arguments and of what its collaborators return (`Env`).

What lives outside command_gen.cc is either a field of `Env` (the builder, the
writers, `Setup`, the command line, whether `DCHECK` is compiled in) or, for the
scheduler and `Setup::Run`, a definition modelled from the specification.
-/

namespace commands

/-! ## Data model -/

/-- A toolchain label (`Label` in tools/gn); only its identity matters here. -/
abbrev Label := String

/-- The fields of `Toolchain` read by this file: none beyond its identity. -/
structure Toolchain where
  label : Label
deriving DecidableEq, Repr

/-- The fields of `Target` read by this file: `settings()->toolchain_label()`. -/
structure Target where
  name : String
  toolchain_label : Label
deriving DecidableEq, Repr

/-- A resolved graph item. `Item::AsTarget()` is non-null exactly for targets;
configs, toolchain items and the like are `other`. -/
inductive Item where
  | target (t : Target)
  | other (name : String)
deriving DecidableEq, Repr

/-- The result of `Item::AsTarget()`: the target, or null. -/
def Item.AsTarget : Item → Option Target
  | Item.target t => some t
  | Item.other _ => none

/-- The value an integer takes when stored in an `int`, which like
`base::subtle::Atomic32` is a signed 32-bit integer (two's complement
wrap-around). -/
def static_cast_int (x : Int) : Int :=
  (x + 2147483648) % 4294967296 - 2147483648

/-- The value `base::subtle::NoBarrier_AtomicIncrement(ptr, increment)` stores
in an `Atomic32` holding `value`. -/
def NoBarrier_AtomicIncrement (value increment : Int) : Int :=
  static_cast_int (value + increment)

/-- The decimal text `base::IntToString` gives an `int`. -/
def IntToString (value : Int) : String :=
  toString value

/-- The primitive operations performed by the code of command_gen.cc. -/
inductive Op where
  /-- The call `base::subtle::NoBarrier_AtomicIncrement(write_counter, 1)`. -/
  | AtomicIncrement
  /-- The call `builder->GetToolchain(label)`. -/
  | GetToolchain (label : Label)
  /-- The check `DCHECK(toolchain)`, with the truth value of its argument. -/
  | DCHECK (cond : Bool)
  /-- The call `g_scheduler->IncrementWorkCount()`. -/
  | IncrementWorkCount
  /-- The call `g_scheduler->ScheduleWork(base::Bind(&BackgroundDoWrite, target, toolchain))`. -/
  | ScheduleWork (target : Target) (toolchain : Option Toolchain)
  /-- The call `NinjaTargetWriter::RunAndWriteFile(target, toolchain)`. -/
  | RunAndWriteFile (target : Target) (toolchain : Option Toolchain)
  /-- The call `g_scheduler->DecrementWorkCount()`. -/
  | DecrementWorkCount
deriving DecidableEq, Repr

/-- Is the operation a `ScheduleWork` call? -/
def Op.isScheduleWork : Op → Bool
  | Op.ScheduleWork _ _ => true
  | _ => false

/-- Is the operation a `RunAndWriteFile` call? -/
def Op.isRunAndWriteFile : Op → Bool
  | Op.RunAndWriteFile _ _ => true
  | _ => false

/-- The collaborators of command_gen.cc that live in other files, as seen from
this one. -/
structure Env where
  /-- What `Builder::GetToolchain` returns: the registered toolchain of a label,
  or null. -/
  GetToolchain : Label → Option Toolchain
  /-- Whether `DCHECK` is compiled in (base/logging.h: debug builds); when it
  is not, `DCHECK(x)` does nothing. -/
  dcheck_is_on : Bool
  /-- Whether `NinjaTargetWriter::RunAndWriteFile` manages to write the file of
  a target; it returns `void` either way. -/
  WriteFile : Target → Option Toolchain → Bool
  /-- What `Setup::DoSetup(build_dir)` returns. -/
  DoSetup : String → Bool
  /-- The items the loader resolves during `Setup::Run`, in the order in which
  the resolved callback receives them. -/
  resolved : List Item
  /-- The value `Setup::Run` returns. -/
  Run : Bool
  /-- What `NinjaWriter::RunAndWriteFiles(build_settings, builder)` returns. -/
  RunAndWriteFiles : Bool
  /-- The switches on the command line of the process. -/
  switches : List String
  /-- What `InputFileManager::GetInputFileCount()` returns. -/
  GetInputFileCount : Int
  /-- What `timer.Elapsed().InMilliseconds()` returns at the end of the run. -/
  elapsed_ms : Int

/-! ## The source functions -/

/-- Suppress output on success. -/
def kSwitchQuiet : String := "q"

/-- The body of `BackgroundDoWrite(target, toolchain)`: write the target's file, then
decrement the work count. -/
def BackgroundDoWrite (target : Target) (toolchain : Option Toolchain) : List Op :=
  [Op.RunAndWriteFile target toolchain,
   Op.DecrementWorkCount]

/-- The body of `ItemResolvedCallback(write_counter, builder, item)`, called on the main
thread. -/
def ItemResolvedCallback (env : Env) (item : Item) : List Op :=
  Op.AtomicIncrement ::
    match item.AsTarget with
    | some target =>
      let toolchain := env.GetToolchain target.toolchain_label
      [Op.GetToolchain target.toolchain_label,
       Op.DCHECK toolchain.isSome,
       Op.IncrementWorkCount,
       Op.ScheduleWork target toolchain]
    | none => []

/-! ## State and interpreter -/

/-- The state the operations act on. -/
structure State where
  /-- The local `write_counter` of `RunGen`, an `Atomic32`. -/
  write_counter : Int
  /-- The work count of `g_scheduler`. -/
  work_count : Int
  /-- What is left to execute of the callback running on the main thread. -/
  main : List Op
  /-- The jobs handed to `ScheduleWork`, in scheduling order: what is left to
  execute of each. A job with nothing left has completed. -/
  jobs : List (List Op)
  /-- The targets whose file has been written. -/
  written : List Target
  /-- Every operation executed so far, oldest first. -/
  log : List Op
  /-- The process died in a failed `DCHECK`. -/
  fatal : Bool
deriving DecidableEq, Repr

/-- The state at the start of a run: `write_counter = 0`, work count 0, nothing
scheduled. -/
def State.init : State :=
  { write_counter := 0, work_count := 0, main := [], jobs := [], written := [],
    log := [], fatal := false }

/-- Modelled from the spec: `Scheduler::IncrementWorkCount` (tools/gn/scheduler.cc
is absent); "Increment() atomically adds 1". -/
def IncrementWorkCount (work_count : Int) : Int := work_count + 1

/-- Modelled from the spec: `Scheduler::DecrementWorkCount` (tools/gn/scheduler.cc
is absent); "Decrement() atomically subtracts 1". -/
def DecrementWorkCount (work_count : Int) : Int := work_count - 1

/-- Modelled from the spec: `Scheduler::ScheduleWork` (tools/gn/scheduler.cc is
absent); "Schedule(job) enqueues job for execution on any available worker and
returns without waiting for it to run". -/
def ScheduleWork (jobs : List (List Op)) (job : List Op) : List (List Op) :=
  jobs ++ [job]

/-- The effect of one operation on the state. -/
def execOp (env : Env) (s : State) (op : Op) : State :=
  let s := { s with log := s.log ++ [op] }
  match op with
  | Op.AtomicIncrement => { s with write_counter := NoBarrier_AtomicIncrement s.write_counter 1 }
  | Op.GetToolchain _ => s
  | Op.DCHECK cond => if env.dcheck_is_on && !cond then { s with fatal := true } else s
  | Op.IncrementWorkCount => { s with work_count := IncrementWorkCount s.work_count }
  | Op.ScheduleWork target toolchain =>
    { s with jobs := ScheduleWork s.jobs (BackgroundDoWrite target toolchain) }
  | Op.RunAndWriteFile target toolchain =>
    if env.WriteFile target toolchain then { s with written := s.written ++ [target] } else s
  | Op.DecrementWorkCount => { s with work_count := DecrementWorkCount s.work_count }

/-- Sequential execution of a list of operations; it stops where the process
dies. -/
def execOps (env : Env) (s : State) : List Op → State
  | [] => s
  | op :: rest =>
    let s1 := execOp env s op
    if s1.fatal then s1 else execOps env s1 rest

/-- One call of `ItemResolvedCallback`, run to its end on the main thread. Nothing
is called in a process that has died. -/
def callItemResolved (env : Env) (s : State) (item : Item) : State :=
  if s.fatal then s else execOps env s (ItemResolvedCallback env item)

/-- The resolved callback called on each item of a sequence in turn. -/
def resolveAll (env : Env) (s : State) (items : List Item) : State :=
  items.foldl (callItemResolved env) s

/-- One execution of an emission job, run to its end. -/
def runJob (env : Env) (s : State) (target : Target) (toolchain : Option Toolchain) : State :=
  execOps env s (BackgroundDoWrite target toolchain)

/-! ## Concurrent semantics -/

/-- What can happen next in the process. -/
inductive Action where
  /-- The loader resolves an item: the main thread enters `ItemResolvedCallback`. -/
  | resolve (item : Item)
  /-- The main thread executes its next operation. -/
  | main_step
  /-- A worker executes the next operation of the job with this index. -/
  | worker_step (i : Nat)
deriving DecidableEq, Repr

/-- One atomic step; `none` when the action cannot happen in this state. The
callback is entered only when the main thread is not inside a call of it, and a
dead process takes no step. -/
def step (env : Env) (s : State) : Action → Option State
  | Action.resolve item =>
    if s.fatal then none
    else match s.main with
      | [] => some { s with main := ItemResolvedCallback env item }
      | _ :: _ => none
  | Action.main_step =>
    if s.fatal then none
    else match s.main with
      | [] => none
      | op :: rest => some (execOp env { s with main := rest } op)
  | Action.worker_step i =>
    if s.fatal then none
    else match s.jobs.get? i with
      | some (op :: rest) => some (execOp env { s with jobs := s.jobs.set i rest } op)
      | _ => none

/-- The state after a sequence of actions, when each of them can happen. -/
def run (env : Env) (s : State) : List Action → Option State
  | [] => some s
  | a :: rest =>
    match step env s a with
    | some s1 => run env s1 rest
    | none => none

/-- The jobs that have been scheduled and have not completed. -/
def State.incomplete (s : State) : List (List Op) :=
  s.jobs.filter (fun job => !job.isEmpty)

/-! ## RunGen -/

/-- The result of `CommandLine::HasSwitch(name)` on a command line with the given
switches. -/
def HasSwitch (switches : List String) (name : String) : Bool :=
  switches.contains name

/-- Finish the job with the given index: a worker executes what is left of it. -/
def finishJob (env : Env) (s : State) (i : Nat) : State :=
  match s.jobs.get? i with
  | some ops => execOps env { s with jobs := s.jobs.set i [] } ops
  | none => s

/-- Modelled from the spec: `Setup::Run` (tools/gn/setup.cc is absent). The
resolver hands every item it resolves to the resolved callback on the main
thread ("Resolving"), then the call blocks until the scheduled jobs have run
("Draining"). Of the interleavings of the jobs with the callback, all covered by
`step`, this is the one where the jobs run at the end, in scheduling order. -/
def Setup.Run (env : Env) (s : State) : State :=
  let s1 := resolveAll env s env.resolved
  if s1.fatal then s1 else (List.range s1.jobs.length).foldl (finishJob env) s1

/-- What `RunGen` calls and prints, in order. -/
inductive Event where
  /-- The call `Err(Location(), msg, help).PrintToStdout()`. -/
  | PrintToStdout (msg help : String)
  /-- The call `setup->DoSetup(build_dir)`. -/
  | DoSetup (build_dir : String)
  /-- The call `setup->builder()->set_resolved_callback(...)`. -/
  | set_resolved_callback
  /-- The call `setup->Run()`. -/
  | Run
  /-- The call `NinjaWriter::RunAndWriteFiles(...)`. -/
  | RunAndWriteFiles
  /-- The call `OutputString(text)`. -/
  | OutputString (text : String)
deriving DecidableEq, Repr

/-- An execution of `RunGen`. -/
structure Execution where
  /-- The value returned; `none` when the process died before returning. -/
  exit_code : Option Int
  /-- The calls made and the text printed, oldest first. -/
  trace : List Event
  /-- The counters and jobs at the end. -/
  state : State
deriving DecidableEq, Repr

/-- The text of the summary line. `write_counter` is cast to `int`, and the
64-bit `InMilliseconds()` is narrowed to the `int` that `IntToString` takes. -/
def stats (env : Env) (write_counter : Int) : String :=
  "Wrote " ++
    IntToString (static_cast_int write_counter) ++
    " targets from " ++
    IntToString env.GetInputFileCount ++
    " files in " ++
    IntToString (static_cast_int env.elapsed_ms) ++ "ms\n"

/-- The function `RunGen(args)`. -/
def RunGen (env : Env) (args : List String) : Execution :=
  match args with
  | [build_dir] =>
    if !env.DoSetup build_dir then
      { exit_code := some 1, trace := [Event.DoSetup build_dir], state := State.init }
    else
      let s := Setup.Run env State.init
      let trace := [Event.DoSetup build_dir, Event.set_resolved_callback, Event.Run]
      if s.fatal then
        { exit_code := none, trace := trace, state := s }
      else if !env.Run then
        { exit_code := some 1, trace := trace, state := s }
      else if !env.RunAndWriteFiles then
        { exit_code := some 1, trace := trace ++ [Event.RunAndWriteFiles], state := s }
      else if !HasSwitch env.switches kSwitchQuiet then
        { exit_code := some 0,
          trace := trace ++ [Event.RunAndWriteFiles, Event.OutputString "Done. ",
            Event.OutputString (stats env s.write_counter)],
          state := s }
      else
        { exit_code := some 0, trace := trace ++ [Event.RunAndWriteFiles], state := s }
  | _ =>
    { exit_code := some 1,
      trace := [Event.PrintToStdout "Need exactly one build directory to generate."
        "I expected something more like \"gn gen out/foo\"\nYou can also see \"gn help gen\"."],
      state := State.init }

/-! ## Sample inputs -/

/-- A build like `sampleEnv` in which the only item resolved is a config. -/
def configOnlyEnv (env : Env) : Env :=
  { env with resolved := [Item.other "//build:config"] }

/-- A target whose toolchain is not registered in `sampleEnv`. -/
def orphanTarget : Target := { name := "//ui:ui", toolchain_label := "//toolchain:missing" }

/-- A target of the default toolchain. -/
def sampleTarget : Target := { name := "//base:base", toolchain_label := "//toolchain:default" }

/-- A second target of the default toolchain. -/
def sampleTarget2 : Target := { name := "//net:net", toolchain_label := "//toolchain:default" }

/-- The default toolchain. -/
def sampleToolchain : Toolchain := { label := "//toolchain:default" }

/-- A build where the default toolchain is registered, every stage succeeds, and
a config and two targets are resolved. -/
def sampleEnv : Env :=
  { GetToolchain := fun l => if l = "//toolchain:default" then some sampleToolchain else none,
    dcheck_is_on := true,
    WriteFile := fun _ _ => true,
    DoSetup := fun _ => true,
    resolved := [Item.other "//build:config", Item.target sampleTarget, Item.target sampleTarget2],
    Run := true,
    RunAndWriteFiles := true,
    switches := [],
    GetInputFileCount := 3,
    elapsed_ms := 12 }

/-- An interleaving: the first target is resolved and its job runs to the end
before the second target is resolved; the second job has written its file and
has not yet decremented the work count. -/
def sampleSchedule : List Action :=
  [Action.resolve (Item.other "//build:config"), Action.main_step,
   Action.resolve (Item.target sampleTarget),
   Action.main_step, Action.main_step, Action.main_step, Action.main_step, Action.main_step,
   Action.worker_step 0, Action.worker_step 0,
   Action.resolve (Item.target sampleTarget2),
   Action.main_step, Action.main_step, Action.main_step, Action.main_step, Action.main_step,
   Action.worker_step 1]

/-- The jobs a sequence of resolved items gives rise to: one per target, in
order, capturing the target and what the toolchain lookup returned. -/
def emissionJobs (env : Env) (items : List Item) : List (List Op) :=
  items.filterMap fun item =>
    item.AsTarget.map fun target =>
      BackgroundDoWrite target (env.GetToolchain target.toolchain_label)

/-- The number of items of a sequence that are targets. -/
def countTargets (items : List Item) : Nat :=
  items.countP fun item => item.AsTarget.isSome

/-! ## Definitions used by the statements -/

/-- A run of 2^31 resolved items, none of them a target. -/
def manyItems : List Item :=
  List.replicate 2147483648 (Item.other "//build:config")

/-- A job is what is left of a `BackgroundDoWrite`. -/
def jobOk (job : List Op) : Prop :=
  job = [] ∨ job = [Op.DecrementWorkCount] ∨ ∃ t tc, job = BackgroundDoWrite t tc

/-- The calls of `ScheduleWork` the main thread still has to make for increments
of the work count it has made already. -/
def mainCredit (main : List Op) : Int :=
  (main.countP Op.isScheduleWork : Int) - main.count Op.IncrementWorkCount

/-- The invariant of the counter protocol. -/
structure Inv (env : Env) (s : State) : Prop where
  main_ok : ∃ item, List.IsSuffix s.main (ItemResolvedCallback env item)
  jobs_ok : ∀ job ∈ s.jobs, jobOk job
  count_eq : s.work_count = mainCredit s.main + s.incomplete.length
  log_eq : (s.log.count Op.IncrementWorkCount : Int) - s.log.count Op.DecrementWorkCount =
    s.work_count

/-- While `DCHECK` is compiled in, a `ScheduleWork` of a job without a toolchain
is never reached: the main thread has the failing `DCHECK` before it. -/
structure NoNull (s : State) : Prop where
  pending : s.fatal = false → ∀ t, Op.ScheduleWork t none ∈ s.main → Op.DCHECK false ∈ s.main
  logged : ∀ t, Op.ScheduleWork t none ∉ s.log

/-- Is the event a call of `OutputString`? -/
def Event.isOutputString : Event → Bool
  | Event.OutputString _ => true
  | _ => false

/-! ## Arithmetic of `int` -/

theorem static_cast_int_of_range (x : Int) (h0 : -2147483648 ≤ x) (h1 : x < 2147483648) :
    static_cast_int x = x := by
  unfold static_cast_int
  omega

/-! ## One call of the resolved callback -/

theorem callItemResolved_other (env : Env) (s : State) (name : String) (h : s.fatal = false) :
    callItemResolved env s (Item.other name) =
      { s with write_counter := static_cast_int (s.write_counter + 1),
               log := s.log ++ [Op.AtomicIncrement] } := by
  simp [callItemResolved, h, ItemResolvedCallback, Item.AsTarget, execOps, execOp,
    NoBarrier_AtomicIncrement]

theorem callItemResolved_target_ok (env : Env) (s : State) (t : Target)
    (h : s.fatal = false)
    (hd : (env.dcheck_is_on && !(env.GetToolchain t.toolchain_label).isSome) = false) :
    callItemResolved env s (Item.target t) =
      { s with write_counter := static_cast_int (s.write_counter + 1),
               work_count := s.work_count + 1,
               jobs := s.jobs ++ [BackgroundDoWrite t (env.GetToolchain t.toolchain_label)],
               log := s.log ++ ItemResolvedCallback env (Item.target t) } := by
  simp only [Bool.and_eq_false_imp, Bool.not_eq_eq_eq_not, Bool.not_false] at hd
  by_cases hon : env.dcheck_is_on = true
  · have h2 := hd hon
    simp [callItemResolved, h, ItemResolvedCallback, Item.AsTarget, execOps, execOp,
      NoBarrier_AtomicIncrement, IncrementWorkCount, ScheduleWork, hon, h2]
  · simp [callItemResolved, h, ItemResolvedCallback, Item.AsTarget, execOps, execOp,
      NoBarrier_AtomicIncrement, IncrementWorkCount, ScheduleWork, hon]

theorem callItemResolved_target_fatal (env : Env) (s : State) (t : Target)
    (h : s.fatal = false) (hon : env.dcheck_is_on = true)
    (hnull : env.GetToolchain t.toolchain_label = none) :
    callItemResolved env s (Item.target t) =
      { s with write_counter := static_cast_int (s.write_counter + 1),
               log := s.log ++ [Op.AtomicIncrement, Op.GetToolchain t.toolchain_label,
                 Op.DCHECK false],
               fatal := true } := by
  simp [callItemResolved, h, ItemResolvedCallback, Item.AsTarget, execOps, execOp,
    NoBarrier_AtomicIncrement, hon, hnull]

/-! ## A sequence of calls of the resolved callback -/

theorem resolveAll_fatal (env : Env) (items : List Item) (s : State) (h : s.fatal = true) :
    resolveAll env s items = s := by
  induction items with
  | nil => rfl
  | cons item rest ih =>
    simp only [resolveAll, List.foldl_cons, callItemResolved, h, if_true]
    exact ih

theorem resolveAll_cons (env : Env) (item : Item) (rest : List Item) (s : State) :
    resolveAll env s (item :: rest) = resolveAll env (callItemResolved env s item) rest := rfl

theorem static_cast_int_idem (x : Int) :
    static_cast_int (static_cast_int x) = static_cast_int x := by
  unfold static_cast_int
  omega

theorem static_cast_int_add_succ (x : Int) (n : Nat) :
    static_cast_int (static_cast_int (x + 1) + n) = static_cast_int (x + (n + 1 : Nat)) := by
  unfold static_cast_int
  push_cast
  omega

/-- The counters, jobs and log after a sequence of calls that all returned. -/
theorem resolveAll_spec (env : Env) (items : List Item) (s : State)
    (h : s.fatal = false) (hret : (resolveAll env s items).fatal = false) :
    (resolveAll env s items).write_counter =
      (if items = [] then s.write_counter else static_cast_int (s.write_counter + items.length)) ∧
    (resolveAll env s items).work_count = s.work_count + countTargets items ∧
    (resolveAll env s items).jobs = s.jobs ++ emissionJobs env items ∧
    (resolveAll env s items).log.countP Op.isScheduleWork =
      s.log.countP Op.isScheduleWork + countTargets items ∧
    (resolveAll env s items).log.count Op.IncrementWorkCount =
      s.log.count Op.IncrementWorkCount + countTargets items ∧
    (resolveAll env s items).main = s.main ∧
    (resolveAll env s items).written = s.written := by
  induction items generalizing s with
  | nil =>
    simp [resolveAll, emissionJobs, countTargets]
  | cons item rest ih =>
    rw [resolveAll_cons] at hret ⊢
    by_cases hf : (callItemResolved env s item).fatal = true
    · rw [resolveAll_fatal env rest _ hf] at hret
      rw [hf] at hret
      exact absurd hret (by decide)
    · have hf2 : (callItemResolved env s item).fatal = false := by simpa using hf
      obtain ⟨h1, h2, h3, h4, h5, h6, h7⟩ := ih _ hf2 hret
      rw [h1, h2, h3, h4, h5, h6, h7]
      have hwc : (if rest = [] then static_cast_int (s.write_counter + 1)
            else static_cast_int (static_cast_int (s.write_counter + 1) + rest.length)) =
          static_cast_int (s.write_counter + (rest.length + 1 : Nat)) := by
        split
        · next hr => subst hr; simp
        · exact static_cast_int_add_succ _ _
      cases item with
      | other name =>
        rw [callItemResolved_other env s name h]
        simp [emissionJobs, countTargets, Item.AsTarget, hwc, Op.isScheduleWork]
      | target t =>
        by_cases hd : (env.dcheck_is_on && !(env.GetToolchain t.toolchain_label).isSome) = false
        · rw [callItemResolved_target_ok env s t h hd]
          simp [emissionJobs, countTargets, Item.AsTarget, hwc, ItemResolvedCallback,
            Op.isScheduleWork, List.countP_cons, List.count_cons]
          omega
        · simp only [Bool.and_eq_false_imp, Bool.not_eq_eq_eq_not, Bool.not_false, not_forall,
            Bool.not_eq_true] at hd
          obtain ⟨hon, hnull0⟩ := hd
          have hnull : env.GetToolchain t.toolchain_label = none := by
            cases hg : env.GetToolchain t.toolchain_label with
            | none => rfl
            | some tc => simp [hg] at hnull0
          rw [callItemResolved_target_fatal env s t h hon hnull] at hf2
          simp at hf2
/-- Every call returns when `DCHECK` is compiled out or every target resolved
has its toolchain registered. -/
theorem resolveAll_returns (env : Env) (items : List Item) (s : State)
    (h : s.fatal = false)
    (hlive : env.dcheck_is_on = false ∨
      ∀ t, Item.target t ∈ items → (env.GetToolchain t.toolchain_label).isSome = true) :
    (resolveAll env s items).fatal = false := by
  induction items generalizing s with
  | nil => simpa [resolveAll] using h
  | cons item rest ih =>
    rw [resolveAll_cons]
    have hrest : env.dcheck_is_on = false ∨
        ∀ t, Item.target t ∈ rest → (env.GetToolchain t.toolchain_label).isSome = true := by
      rcases hlive with hoff | hreg
      · exact Or.inl hoff
      · exact Or.inr fun t ht => hreg t (List.mem_cons_of_mem _ ht)
    apply ih _ _ hrest
    cases item with
    | other name =>
      rw [callItemResolved_other env s name h]
      exact h
    | target t =>
      have hd : (env.dcheck_is_on && !(env.GetToolchain t.toolchain_label).isSome) = false := by
        rcases hlive with hoff | hreg
        · simp [hoff]
        · simp [hreg t (List.mem_cons_self _ _)]
      rw [callItemResolved_target_ok env s t h hd]
      exact h

theorem emissionJobs_length (env : Env) (items : List Item) :
    (emissionJobs env items).length = countTargets items := by
  induction items with
  | nil => rfl
  | cons item rest ih =>
    have hopt : ∀ o : Option Target, (o.map fun target =>
        BackgroundDoWrite target (env.GetToolchain target.toolchain_label)).isSome = o.isSome := by
      intro o
      cases o <;> rfl
    simp only [emissionJobs, countTargets] at ih ⊢
    cases hi : item.AsTarget with
    | none => simp [List.filterMap_cons, List.countP_cons, hi, ih]
    | some t => simp [List.filterMap_cons, List.countP_cons, hi, ih]

/-! ## Claims on the resolved callback -/

/-- C1 as stated fails: after 2^31 resolution events, all returned, the 32-bit
`write_counter` holds -2^31 and not the number of events. -/
theorem write_counter_wraps :
    (resolveAll sampleEnv State.init manyItems).fatal = false ∧
    manyItems.length = 2147483648 ∧
    (resolveAll sampleEnv State.init manyItems).write_counter = -2147483648 ∧
    (resolveAll sampleEnv State.init manyItems).write_counter ≠ manyItems.length := by
  have hlen : manyItems.length = 2147483648 := List.length_replicate _ _
  have hret : (resolveAll sampleEnv State.init manyItems).fatal = false := by
    apply resolveAll_returns _ _ _ rfl
    right
    intro t ht
    have := List.eq_of_mem_replicate ht
    cases this
  have hwc := (resolveAll_spec sampleEnv manyItems State.init rfl hret).1
  have hne : manyItems ≠ [] := by
    intro h0
    rw [h0] at hlen
    cases hlen
  rw [if_neg hne, hlen] at hwc
  have hval : static_cast_int (State.init.write_counter + (2147483648 : Nat)) = -2147483648 := by
    decide
  rw [hval] at hwc
  refine ⟨hret, hlen, hwc, ?_⟩
  rw [hwc, hlen]
  decide

/-- C1 (amended): after a sequence of N resolution events starting from
`write_counter = 0`, all of whose calls returned, exactly K emission jobs have been
passed to `ScheduleWork`, one per target item in order and none for a non-target
item, `write_counter` holds N as a 32-bit integer, and it equals N when N < 2^31. -/
theorem ItemResolvedCallback_counts (env : Env) (items : List Item)
    (hret : (resolveAll env State.init items).fatal = false) :
    (resolveAll env State.init items).log.countP Op.isScheduleWork = countTargets items ∧
    (resolveAll env State.init items).jobs = emissionJobs env items ∧
    (emissionJobs env items).length = countTargets items ∧
    (resolveAll env State.init items).write_counter = static_cast_int items.length ∧
    (items.length < 2147483648 →
      (resolveAll env State.init items).write_counter = items.length) := by
  obtain ⟨h1, _, h3, h4, _, _, _⟩ := resolveAll_spec env items State.init rfl hret
  have hwc : (resolveAll env State.init items).write_counter = static_cast_int items.length := by
    rw [h1]
    split
    · next h0 => subst h0; rfl
    · simp [State.init]
  refine ⟨?_, ?_, ?_, hwc, ?_⟩
  · simpa [State.init] using h4
  · simpa [State.init] using h3
  · exact emissionJobs_length env items
  · intro hN
    rw [hwc]
    apply static_cast_int_of_range <;> omega

/-- C1 witness: a config and two targets give `write_counter = 3` and two jobs. -/
theorem ItemResolvedCallback_counts_witness :
    (resolveAll sampleEnv State.init sampleEnv.resolved).log.countP Op.isScheduleWork = 2 ∧
    (resolveAll sampleEnv State.init sampleEnv.resolved).write_counter = 3 := by
  have h := ItemResolvedCallback_counts sampleEnv sampleEnv.resolved (by decide)
  exact ⟨h.1, h.2.2.2.2 (by decide)⟩

/-! ## The counter protocol under interleaving -/

theorem Inv_init (env : Env) : Inv env State.init := by
  refine ⟨⟨Item.other "", ?_⟩, ?_, ?_, ?_⟩
  · exact List.nil_suffix
  · intro job hjob
    cases hjob
  · rfl
  · rfl

theorem mainCredit_callback (env : Env) (item : Item) :
    mainCredit (ItemResolvedCallback env item) = 0 := by
  cases item <;> simp [mainCredit, ItemResolvedCallback, Item.AsTarget, Op.isScheduleWork,
    List.countP_cons, List.count_cons]

theorem mainCredit_nonneg (env : Env) (item : Item) (main : List Op)
    (h : List.IsSuffix main (ItemResolvedCallback env item)) : 0 ≤ mainCredit main := by
  cases item with
  | other name =>
    simp only [ItemResolvedCallback, Item.AsTarget, List.suffix_cons_iff, List.suffix_nil] at h
    rcases h with h | h <;> subst h <;> decide
  | target t =>
    simp only [ItemResolvedCallback, Item.AsTarget, List.suffix_cons_iff, List.suffix_nil] at h
    rcases h with h | h | h | h | h | h <;> subst h <;>
      simp [mainCredit, Op.isScheduleWork, List.countP_cons, List.count_cons]

theorem callback_ops (env : Env) (item : Item) (op : Op)
    (h : op ∈ ItemResolvedCallback env item) :
    op ≠ Op.DecrementWorkCount ∧ op.isRunAndWriteFile = false := by
  cases item with
  | other name =>
    simp only [ItemResolvedCallback, Item.AsTarget, List.mem_singleton] at h
    subst h
    simp [Op.isRunAndWriteFile]
  | target t =>
    simp only [ItemResolvedCallback, Item.AsTarget, List.mem_cons, List.mem_singleton] at h
    rcases h with h | h | h | h | h | h
    all_goals first
      | (subst h; simp [Op.isRunAndWriteFile])
      | simp at h

theorem incomplete_length_set (jobs : List (List Op)) (i : Nat) (old new : List Op)
    (h : jobs.get? i = some old) :
    ((jobs.set i new).filter (fun job => !job.isEmpty)).length + (if old.isEmpty then 0 else 1) =
      (jobs.filter (fun job => !job.isEmpty)).length + (if new.isEmpty then 0 else 1) := by
  induction jobs generalizing i with
  | nil => simp at h
  | cons job rest ih =>
    cases i with
    | zero =>
      simp at h
      subst h
      cases job <;> cases new <;> simp [List.filter_cons]
    | succ k =>
      rw [List.get?_cons_succ] at h
      have := ih k h
      simp only [List.set_cons_succ, List.filter_cons]
      split
      · simp only [List.length_cons]
        omega
      · omega

theorem Inv_step (env : Env) (s s1 : State) (a : Action) (hinv : Inv env s)
    (hstep : step env s a = some s1) : Inv env s1 := by
  obtain ⟨⟨item0, hmain⟩, hjobs, hcount, hlog⟩ := hinv
  cases a with
  | resolve item =>
    simp only [step] at hstep
    split at hstep
    · cases hstep
    · split at hstep
      · next hm =>
        cases hstep
        refine ⟨⟨item, List.suffix_refl _⟩, hjobs, ?_, hlog⟩
        rw [hm] at hcount
        show s.work_count = mainCredit (ItemResolvedCallback env item) + _
        rw [mainCredit_callback]
        simpa [State.incomplete, mainCredit] using hcount
      · cases hstep
  | main_step =>
    simp only [step] at hstep
    split at hstep
    · cases hstep
    · split at hstep
      · cases hstep
      · next op rest hm =>
        cases hstep
        rw [hm] at hmain hcount
        have hsuf : List.IsSuffix rest (ItemResolvedCallback env item0) :=
          (List.suffix_cons op rest).trans hmain
        obtain ⟨hnd, hnw⟩ := callback_ops env item0 op (hmain.subset (List.mem_cons_self _ _))
        cases op with
        | AtomicIncrement =>
          refine ⟨⟨item0, hsuf⟩, hjobs, ?_, ?_⟩
          · simpa [execOp, mainCredit, State.incomplete, Op.isScheduleWork, List.countP_cons,
              List.count_cons] using hcount
          · simpa [execOp, List.count_append, List.count_cons] using hlog
        | GetToolchain label =>
          refine ⟨⟨item0, hsuf⟩, hjobs, ?_, ?_⟩
          · simpa [execOp, mainCredit, State.incomplete, Op.isScheduleWork, List.countP_cons,
              List.count_cons] using hcount
          · simpa [execOp, List.count_append, List.count_cons] using hlog
        | DCHECK cond =>
          refine ⟨⟨item0, ?_⟩, ?_, ?_, ?_⟩
          · simp only [execOp]
            split <;> exact hsuf
          · simp only [execOp]
            split <;> exact hjobs
          · simp only [execOp]
            split <;>
              simpa [mainCredit, State.incomplete, Op.isScheduleWork, List.countP_cons,
                List.count_cons] using hcount
          · simp only [execOp]
            split <;> simpa [List.count_append, List.count_cons] using hlog
        | IncrementWorkCount =>
          refine ⟨⟨item0, hsuf⟩, hjobs, ?_, ?_⟩
          · simp only [execOp, IncrementWorkCount, mainCredit, State.incomplete,
              Op.isScheduleWork, List.countP_cons, List.count_cons] at hcount ⊢
            simp at hcount ⊢
            omega
          · simp only [execOp, IncrementWorkCount, List.count_append, List.count_cons] at hlog ⊢
            simp at hlog ⊢
            omega
        | ScheduleWork t tc =>
          refine ⟨⟨item0, hsuf⟩, ?_, ?_, ?_⟩
          · intro job hjob
            simp only [execOp, ScheduleWork, List.mem_append, List.mem_singleton] at hjob
            rcases hjob with hjob | hjob
            · exact hjobs job hjob
            · exact Or.inr (Or.inr ⟨t, tc, hjob⟩)
          · simp only [execOp, ScheduleWork, mainCredit, State.incomplete,
              Op.isScheduleWork, List.countP_cons, List.count_cons, List.filter_append,
              BackgroundDoWrite] at hcount ⊢
            simp at hcount ⊢
            omega
          · simpa [execOp, List.count_append, List.count_cons] using hlog
        | RunAndWriteFile t tc => simp [Op.isRunAndWriteFile] at hnw
        | DecrementWorkCount => exact absurd rfl hnd
  | worker_step i =>
    simp only [step] at hstep
    split at hstep
    · cases hstep
    · split at hstep
      · next op rest hget =>
        cases hstep
        have hok := hjobs _ (List.get?_mem hget)
        have hset := incomplete_length_set s.jobs i (op :: rest) rest hget
        rcases hok with hok | hok | ⟨t, tc, hok⟩
        · cases hok
        · cases hok
          refine ⟨⟨item0, hmain⟩, ?_, ?_, ?_⟩
          · intro job hjob
            simp only [execOp] at hjob
            rcases List.mem_or_eq_of_mem_set hjob with hjob | hjob
            · exact hjobs job hjob
            · exact Or.inl hjob
          · simp only [execOp, DecrementWorkCount, State.incomplete] at hcount hset ⊢
            simp at hset
            omega
          · simp only [execOp, DecrementWorkCount, List.count_append, List.count_cons] at hlog ⊢
            simp at hlog ⊢
            omega
        · cases hok
          refine ⟨⟨item0, ?_⟩, ?_, ?_, ?_⟩
          · simp only [execOp]
            split <;> exact hmain
          · intro job hjob
            have hjob1 : job ∈ s.jobs.set i [Op.DecrementWorkCount] := by
              simp only [execOp] at hjob
              split at hjob <;> exact hjob
            rcases List.mem_or_eq_of_mem_set hjob1 with hjob2 | hjob2
            · exact hjobs job hjob2
            · exact Or.inr (Or.inl hjob2)
          · simp only [State.incomplete] at hcount hset ⊢
            simp at hset
            simp only [execOp]
            split <;> simp only [] <;> omega
          · simp only [execOp]
            split <;> simpa [List.count_append, List.count_cons] using hlog
      · cases hstep

theorem Inv_run (env : Env) (acts : List Action) (s s1 : State) (hinv : Inv env s)
    (hrun : run env s acts = some s1) : Inv env s1 := by
  induction acts generalizing s with
  | nil =>
    simp only [run, Option.some.injEq] at hrun
    exact hrun ▸ hinv
  | cons a rest ih =>
    simp only [run] at hrun
    split at hrun
    · next s2 hstep => exact ih s2 (Inv_step env s s2 a hinv hstep) hrun
    · cases hrun

/-- C2: in every state reachable from the initial one by any interleaving of
resolution events, steps of the main thread and steps of the scheduled jobs, the
work count is at least the number of jobs that have been scheduled and have not
completed; so it is not 0 while such a job exists. -/
theorem work_count_covers_incomplete_jobs (env : Env) (acts : List Action) (s : State)
    (hrun : run env State.init acts = some s) :
    (s.incomplete.length : Int) ≤ s.work_count ∧
    (s.incomplete ≠ [] → s.work_count ≠ 0) := by
  obtain ⟨⟨item, hmain⟩, _, hcount, _⟩ := Inv_run env acts State.init s (Inv_init env) hrun
  have hcredit := mainCredit_nonneg env item s.main hmain
  have hle : (s.incomplete.length : Int) ≤ s.work_count := by omega
  refine ⟨hle, fun hne h0 => ?_⟩
  have hpos : 0 < s.incomplete.length := List.length_pos.mpr hne
  omega

/-- C2 witness: after `sampleSchedule` one job has completed, one is still
incomplete, and the work count is 1. -/
theorem work_count_covers_incomplete_jobs_witness :
    ∃ s, run sampleEnv State.init sampleSchedule = some s ∧
      s.jobs = [[], [Op.DecrementWorkCount]] ∧ s.work_count = 1 ∧
      (s.incomplete.length : Int) ≤ s.work_count ∧ (s.incomplete ≠ [] → s.work_count ≠ 0) := by
  have hsome : (run sampleEnv State.init sampleSchedule).isSome = true := by decide
  obtain ⟨s, hs⟩ := Option.isSome_iff_exists.mp hsome
  have hjobs : (run sampleEnv State.init sampleSchedule).map (fun s => s.jobs) =
      some [[], [Op.DecrementWorkCount]] := by decide
  have hwork : (run sampleEnv State.init sampleSchedule).map (fun s => s.work_count) =
      some 1 := by decide
  rw [hs] at hjobs hwork
  exact ⟨s, hs, by simpa using hjobs, by simpa using hwork,
    work_count_covers_incomplete_jobs sampleEnv sampleSchedule s hs⟩

/-- C3: in every state reachable from the initial one by any interleaving, the
work count is at least 0, and the calls of `DecrementWorkCount` made so far are
no more than the calls of `IncrementWorkCount` made so far. -/
theorem work_count_nonneg (env : Env) (acts : List Action) (s : State)
    (hrun : run env State.init acts = some s) :
    0 ≤ s.work_count ∧
    s.log.count Op.DecrementWorkCount ≤ s.log.count Op.IncrementWorkCount := by
  obtain ⟨⟨item, hmain⟩, _, hcount, hlog⟩ := Inv_run env acts State.init s (Inv_init env) hrun
  have hcredit := mainCredit_nonneg env item s.main hmain
  constructor <;> omega

/-- C3 witness: after `sampleSchedule` two increments and one decrement have been
made. -/
theorem work_count_nonneg_witness :
    ∃ s, run sampleEnv State.init sampleSchedule = some s ∧
      s.log.count Op.IncrementWorkCount = 2 ∧ s.log.count Op.DecrementWorkCount = 1 ∧
      0 ≤ s.work_count := by
  have hsome : (run sampleEnv State.init sampleSchedule).isSome = true := by decide
  obtain ⟨s, hs⟩ := Option.isSome_iff_exists.mp hsome
  have hinc : (run sampleEnv State.init sampleSchedule).map
      (fun s => s.log.count Op.IncrementWorkCount) = some 2 := by decide
  have hdec : (run sampleEnv State.init sampleSchedule).map
      (fun s => s.log.count Op.DecrementWorkCount) = some 1 := by decide
  rw [hs] at hinc hdec
  exact ⟨s, hs, by simpa using hinc, by simpa using hdec,
    (work_count_nonneg sampleEnv sampleSchedule s hs).1⟩

/-! ## A missing toolchain -/

theorem execOp_main (env : Env) (s : State) (op : Op) : (execOp env s op).main = s.main := by
  cases op <;> simp only [execOp] <;> (try split) <;> rfl

theorem execOp_log (env : Env) (s : State) (op : Op) :
    (execOp env s op).log = s.log ++ [op] := by
  cases op <;> simp only [execOp] <;> (try split) <;> rfl

theorem execOp_fatal (env : Env) (s : State) (op : Op)
    (h : ∀ cond, op = Op.DCHECK cond → (env.dcheck_is_on && !cond) = false) :
    (execOp env s op).fatal = s.fatal := by
  cases op with
  | DCHECK cond => simp [execOp, h cond rfl]
  | RunAndWriteFile t tc =>
    simp only [execOp]
    split <;> rfl
  | _ => rfl

theorem execOp_DCHECK_false (env : Env) (s : State) (hon : env.dcheck_is_on = true) :
    (execOp env s (Op.DCHECK false)).fatal = true := by
  simp [execOp, hon]

theorem ScheduleWork_last (env : Env) (item : Item) (t : Target) (tc : Option Toolchain)
    (rest : List Op)
    (h : List.IsSuffix (Op.ScheduleWork t tc :: rest) (ItemResolvedCallback env item)) :
    rest = [] := by
  cases item with
  | other name =>
    simp [ItemResolvedCallback, Item.AsTarget, List.suffix_cons_iff] at h
  | target t0 =>
    simp only [ItemResolvedCallback, Item.AsTarget, List.suffix_cons_iff, List.suffix_nil] at h
    rcases h with h | h | h | h | h | h
    all_goals first
      | (simp at h; done)
      | (simp only [List.cons.injEq] at h; exact h.2)

theorem NoNull_init : NoNull State.init := by
  refine ⟨?_, ?_⟩
  · intro _ t ht
    cases ht
  · intro t ht
    cases ht

theorem NoNull_step (env : Env) (hon : env.dcheck_is_on = true) (s s1 : State) (a : Action)
    (hinv : Inv env s) (hnn : NoNull s) (hstep : step env s a = some s1) : NoNull s1 := by
  obtain ⟨⟨item0, hmain⟩, hjobs, _, _⟩ := hinv
  obtain ⟨hpend, hlogged⟩ := hnn
  cases a with
  | resolve item =>
    simp only [step] at hstep
    split at hstep
    · cases hstep
    · split at hstep
      · cases hstep
        refine ⟨?_, hlogged⟩
        intro _ t ht
        cases item with
        | other name => simp [ItemResolvedCallback, Item.AsTarget] at ht
        | target t0 =>
          simp only [ItemResolvedCallback, Item.AsTarget, List.mem_cons, List.mem_singleton,
            Op.ScheduleWork.injEq] at ht
          simp only [ItemResolvedCallback, Item.AsTarget]
          rcases ht with ht | ht | ht | ht | ht | ht
          all_goals first
            | simp at ht
            | (rw [← ht.2]; simp)
      · cases hstep
  | main_step =>
    simp only [step] at hstep
    split at hstep
    · cases hstep
    · next hlive =>
      have hlive1 : s.fatal = false := by simpa using hlive
      split at hstep
      · cases hstep
      · next op rest hm =>
        cases hstep
        rw [hm] at hmain hpend
        refine ⟨?_, ?_⟩
        · intro hf t ht
          rw [execOp_main] at ht ⊢
          have hd := hpend hlive1 t (List.mem_cons_of_mem _ ht)
          rcases List.mem_cons.mp hd with hd | hd
          · rw [← hd, execOp_DCHECK_false env _ hon] at hf
            cases hf
          · exact hd
        · intro t ht
          rw [execOp_log] at ht
          rcases List.mem_append.mp ht with ht | ht
          · exact hlogged t ht
          · have hop : op = Op.ScheduleWork t none := (List.mem_singleton.mp ht).symm
            subst hop
            have hrest := ScheduleWork_last env item0 t none rest hmain
            have hd := hpend hlive1 t (List.mem_cons_self _ _)
            rw [hrest] at hd
            simp at hd
  | worker_step i =>
    simp only [step] at hstep
    split at hstep
    · cases hstep
    · split at hstep
      · next op rest hget =>
        cases hstep
        have hok := hjobs _ (List.get?_mem hget)
        have hop : op = Op.DecrementWorkCount ∨ ∃ t tc, op = Op.RunAndWriteFile t tc := by
          rcases hok with hok | hok | ⟨t, tc, hok⟩
          · cases hok
          · cases hok
            exact Or.inl rfl
          · cases hok
            exact Or.inr ⟨t, tc, rfl⟩
        have hfatal : (execOp env { s with jobs := s.jobs.set i rest } op).fatal = s.fatal := by
          apply execOp_fatal
          intro cond hc
          rcases hop with hop | ⟨t, tc, hop⟩ <;> rw [hop] at hc <;> cases hc
        refine ⟨?_, ?_⟩
        · intro hf t ht
          rw [execOp_main] at ht ⊢
          rw [hfatal] at hf
          exact hpend hf t ht
        · intro t ht
          rw [execOp_log] at ht
          rcases List.mem_append.mp ht with ht | ht
          · exact hlogged t ht
          · have hop1 : op = Op.ScheduleWork t none := (List.mem_singleton.mp ht).symm
            rcases hop with hop | ⟨t1, tc1, hop⟩ <;> rw [hop] at hop1 <;> cases hop1
      · cases hstep

theorem NoNull_run (env : Env) (hon : env.dcheck_is_on = true) (acts : List Action)
    (s s1 : State) (hinv : Inv env s) (hnn : NoNull s) (hrun : run env s acts = some s1) :
    NoNull s1 := by
  induction acts generalizing s with
  | nil =>
    simp only [run, Option.some.injEq] at hrun
    exact hrun ▸ hnn
  | cons a rest ih =>
    simp only [run] at hrun
    split at hrun
    · next s2 hstep =>
      exact ih s2 (Inv_step env s s2 a hinv hstep) (NoNull_step env hon s s2 a hinv hnn hstep) hrun
    · cases hrun

/-- C6 as stated fails: where `DCHECK` is compiled out, the callback on a target
whose toolchain lookup returns null does not die; it increments the work count
and schedules a job without a toolchain. -/
theorem missing_toolchain_unchecked :
    sampleEnv.GetToolchain orphanTarget.toolchain_label = none ∧
    (callItemResolved { sampleEnv with dcheck_is_on := false } State.init
      (Item.target orphanTarget)).fatal = false ∧
    (callItemResolved { sampleEnv with dcheck_is_on := false } State.init
      (Item.target orphanTarget)).work_count = 1 ∧
    (callItemResolved { sampleEnv with dcheck_is_on := false } State.init
      (Item.target orphanTarget)).jobs = [BackgroundDoWrite orphanTarget none] ∧
    (callItemResolved { sampleEnv with dcheck_is_on := false } State.init
      (Item.target orphanTarget)).log =
      [Op.AtomicIncrement, Op.GetToolchain "//toolchain:missing", Op.DCHECK false,
       Op.IncrementWorkCount, Op.ScheduleWork orphanTarget none] := by
  decide

/-- C6 (amended): where `DCHECK` is compiled in, `ItemResolvedCallback` on a target
whose toolchain lookup returns null dies in the `DCHECK`: after the increment of
`write_counter` and the lookup it calls neither `IncrementWorkCount` nor
`ScheduleWork`; and in no state reachable by any interleaving has `ScheduleWork`
been called for a job without a toolchain. -/
theorem missing_toolchain_fatal (env : Env) (hon : env.dcheck_is_on = true) :
    (∀ (s : State) (t : Target), s.fatal = false →
      env.GetToolchain t.toolchain_label = none →
      (callItemResolved env s (Item.target t)).fatal = true ∧
      (callItemResolved env s (Item.target t)).work_count = s.work_count ∧
      (callItemResolved env s (Item.target t)).jobs = s.jobs ∧
      (callItemResolved env s (Item.target t)).log =
        s.log ++ [Op.AtomicIncrement, Op.GetToolchain t.toolchain_label, Op.DCHECK false]) ∧
    (∀ (acts : List Action) (s : State), run env State.init acts = some s →
      ∀ t, Op.ScheduleWork t none ∉ s.log) := by
  refine ⟨?_, ?_⟩
  · intro s t hlive hnull
    rw [callItemResolved_target_fatal env s t hlive hon hnull]
    exact ⟨rfl, rfl, rfl, rfl⟩
  · intro acts s hrun
    exact (NoNull_run env hon acts State.init s (Inv_init env) NoNull_init hrun).logged

/-- C6 witness: in `sampleEnv`, where `DCHECK` is compiled in, the callback on
`orphanTarget` dies with the work count still 0 and no job scheduled. -/
theorem missing_toolchain_fatal_witness :
    (callItemResolved sampleEnv State.init (Item.target orphanTarget)).fatal = true ∧
    (callItemResolved sampleEnv State.init (Item.target orphanTarget)).work_count = 0 ∧
    (callItemResolved sampleEnv State.init (Item.target orphanTarget)).jobs = [] :=
  have h := (missing_toolchain_fatal sampleEnv rfl).1 State.init orphanTarget rfl (by decide)
  ⟨h.1, h.2.1, h.2.2.1⟩

/-! ## The order of effects -/

/-- C9: for a target whose toolchain is registered, one call of
`ItemResolvedCallback` increments `write_counter`, looks up the toolchain, passes
the `DCHECK`, calls `IncrementWorkCount`, then calls `ScheduleWork` with the job
capturing the target and the toolchain, in this order and nothing else;
`IncrementWorkCount` is called once and before `ScheduleWork`; and for every
item, target or not, the increment of `write_counter` comes first. -/
theorem ItemResolvedCallback_order (env : Env) (s : State) (t : Target) (tc : Toolchain)
    (hlive : s.fatal = false) (hreg : env.GetToolchain t.toolchain_label = some tc) :
    ItemResolvedCallback env (Item.target t) =
      [Op.AtomicIncrement, Op.GetToolchain t.toolchain_label, Op.DCHECK true,
       Op.IncrementWorkCount, Op.ScheduleWork t (some tc)] ∧
    (callItemResolved env s (Item.target t)).log =
      s.log ++ [Op.AtomicIncrement, Op.GetToolchain t.toolchain_label, Op.DCHECK true,
        Op.IncrementWorkCount, Op.ScheduleWork t (some tc)] ∧
    (callItemResolved env s (Item.target t)).jobs =
      s.jobs ++ [BackgroundDoWrite t (some tc)] ∧
    (callItemResolved env s (Item.target t)).work_count = s.work_count + 1 ∧
    (ItemResolvedCallback env (Item.target t)).count Op.IncrementWorkCount = 1 ∧
    (ItemResolvedCallback env (Item.target t)).indexOf Op.IncrementWorkCount <
      (ItemResolvedCallback env (Item.target t)).indexOf (Op.ScheduleWork t (some tc)) ∧
    (∀ item, (ItemResolvedCallback env item).head? = some Op.AtomicIncrement) := by
  have hd : (env.dcheck_is_on && !(env.GetToolchain t.toolchain_label).isSome) = false := by
    simp [hreg]
  have hops : ItemResolvedCallback env (Item.target t) =
      [Op.AtomicIncrement, Op.GetToolchain t.toolchain_label, Op.DCHECK true,
       Op.IncrementWorkCount, Op.ScheduleWork t (some tc)] := by
    simp [ItemResolvedCallback, Item.AsTarget, hreg]
  rw [callItemResolved_target_ok env s t hlive hd, hops, hreg]
  refine ⟨rfl, rfl, rfl, rfl, ?_, ?_, ?_⟩
  · simp [List.count_cons]
  · simp [List.indexOf_cons]
  · intro item
    rfl

/-- C9 witness: the call on `sampleTarget` in `sampleEnv`. -/
theorem ItemResolvedCallback_order_witness :
    (callItemResolved sampleEnv State.init (Item.target sampleTarget)).log =
      [Op.AtomicIncrement, Op.GetToolchain "//toolchain:default", Op.DCHECK true,
       Op.IncrementWorkCount, Op.ScheduleWork sampleTarget (some sampleToolchain)] :=
  (ItemResolvedCallback_order sampleEnv State.init sampleTarget sampleToolchain rfl
    (by decide)).2.1

/-- C10: one execution of `BackgroundDoWrite` in a live process calls
`RunAndWriteFile` and then `DecrementWorkCount`, once and as its last action,
whether or not the file was written; the work count goes down by 1 and
`write_counter` is unchanged. -/
theorem BackgroundDoWrite_decrements (env : Env) (s : State) (t : Target)
    (tc : Option Toolchain) (hlive : s.fatal = false) :
    (runJob env s t tc).log = s.log ++ [Op.RunAndWriteFile t tc, Op.DecrementWorkCount] ∧
    (BackgroundDoWrite t tc).count Op.DecrementWorkCount = 1 ∧
    (BackgroundDoWrite t tc).getLast? = some Op.DecrementWorkCount ∧
    (runJob env s t tc).work_count = s.work_count - 1 ∧
    (runJob env s t tc).write_counter = s.write_counter ∧
    (runJob env s t tc).written =
      (if env.WriteFile t tc then s.written ++ [t] else s.written) ∧
    (runJob env s t tc).fatal = false := by
  refine ⟨?_, by simp [BackgroundDoWrite, List.count_cons], rfl, ?_, ?_, ?_, ?_⟩ <;>
    simp only [runJob, BackgroundDoWrite, execOps, execOp, DecrementWorkCount] <;>
    split <;> simp [hlive]

/-- C10 witness: a job run in the state after its scheduling in `sampleEnv`, and
the same job where the write fails. -/
theorem BackgroundDoWrite_decrements_witness :
    (runJob sampleEnv (callItemResolved sampleEnv State.init (Item.target sampleTarget))
      sampleTarget (some sampleToolchain)).work_count = 0 ∧
    (runJob { sampleEnv with WriteFile := fun _ _ => false }
      (callItemResolved sampleEnv State.init (Item.target sampleTarget))
      sampleTarget (some sampleToolchain)).work_count = 0 :=
  ⟨(BackgroundDoWrite_decrements sampleEnv _ sampleTarget (some sampleToolchain)
      (by decide)).2.2.2.1,
   (BackgroundDoWrite_decrements { sampleEnv with WriteFile := fun _ _ => false } _
      sampleTarget (some sampleToolchain) (by decide)).2.2.2.1⟩

/-! ## RunGen -/

/-- C4: `RunGen` returns 0 exactly when `args.size() == 1` and `DoSetup`, `Run` and
`RunAndWriteFiles` all report success (`Run` reports when it returns, which it
does unless the process dies in the callback's `DCHECK`); it returns 1 exactly
when the argument count is wrong, `DoSetup` reports failure, `Run` reports
failure, or `Run` reports success and `RunAndWriteFiles` reports failure; it
returns no other value; and the one case without a return value is the death of
the process inside `Run`. -/
theorem RunGen_exit_code (env : Env) (args : List String) :
    ((RunGen env args).exit_code = some 0 ↔
      args.length = 1 ∧ (∀ d ∈ args, env.DoSetup d = true) ∧
      (Setup.Run env State.init).fatal = false ∧ env.Run = true ∧
      env.RunAndWriteFiles = true) ∧
    ((RunGen env args).exit_code = some 1 ↔
      args.length ≠ 1 ∨ (∃ d ∈ args, env.DoSetup d = false) ∨
      ((Setup.Run env State.init).fatal = false ∧
        (env.Run = false ∨ env.RunAndWriteFiles = false))) ∧
    (∀ v, (RunGen env args).exit_code = some v → v = 0 ∨ v = 1) ∧
    ((RunGen env args).exit_code = none ↔
      args.length = 1 ∧ (∀ d ∈ args, env.DoSetup d = true) ∧
      (Setup.Run env State.init).fatal = true) := by
  cases args with
  | nil => simp [RunGen]
  | cons d rest =>
    cases rest with
    | cons d2 rest2 => simp [RunGen]
    | nil =>
      cases h1 : env.DoSetup d <;> cases h2 : (Setup.Run env State.init).fatal <;>
        cases h3 : env.Run <;> cases h4 : env.RunAndWriteFiles <;>
        cases h5 : HasSwitch env.switches kSwitchQuiet <;>
        simp [RunGen, h1, h2, h3, h4, h5]

theorem execOp_switches (env : Env) (switches : List String) :
    execOp { env with switches := switches } = execOp env := by
  funext s op
  cases op <;> rfl

theorem execOps_switches (env : Env) (switches : List String) :
    execOps { env with switches := switches } = execOps env := by
  funext s ops
  induction ops generalizing s with
  | nil => rfl
  | cons op rest ih => simp only [execOps, execOp_switches, ih]

theorem callItemResolved_switches (env : Env) (switches : List String) :
    callItemResolved { env with switches := switches } = callItemResolved env := by
  funext s item
  simp only [callItemResolved, execOps_switches]
  rfl

theorem finishJob_switches (env : Env) (switches : List String) :
    finishJob { env with switches := switches } = finishJob env := by
  funext s i
  simp only [finishJob, execOps_switches]

theorem Setup.Run_switches (env : Env) (switches : List String) (s : State) :
    Setup.Run { env with switches := switches } s = Setup.Run env s := by
  simp only [Setup.Run, resolveAll, callItemResolved_switches, finishJob_switches]

theorem stats_switches (env : Env) (switches : List String) (write_counter : Int) :
    stats { env with switches := switches } write_counter = stats env write_counter := rfl

/-- C7: `RunGen` makes its calls in the order `DoSetup`, `set_resolved_callback`,
`Run`, `RunAndWriteFiles`, summary, and stops at the first stage that fails. The
trace of every run is fixed: with a wrong argument count it is the one error
message, it returns 1 and no callback has run; when `DoSetup` fails it is
`DoSetup` alone; when `Run` fails or the process dies in it, it ends with `Run`
and `RunAndWriteFiles` is not called; when `RunAndWriteFiles` fails it ends with
that call and nothing is printed; when every stage succeeds it is `DoSetup`,
`set_resolved_callback`, `Run`, `RunAndWriteFiles`, followed by the two
`OutputString` calls of the summary unless the quiet switch is set; and
`OutputString` is called only in a run that returns 0. -/
theorem RunGen_stage_order (env : Env) (args : List String) :
    (args.length ≠ 1 →
      (RunGen env args).trace =
        [Event.PrintToStdout "Need exactly one build directory to generate."
          "I expected something more like \"gn gen out/foo\"\nYou can also see \"gn help gen\"."] ∧
      (RunGen env args).exit_code = some 1 ∧
      (∀ e ∈ (RunGen env args).trace, ∃ msg help, e = Event.PrintToStdout msg help) ∧
      (RunGen env args).state = State.init) ∧
    (∀ d, args = [d] →
      (∃ rest, (RunGen env args).trace ++ rest =
        [Event.DoSetup d, Event.set_resolved_callback, Event.Run, Event.RunAndWriteFiles,
         Event.OutputString "Done. ",
         Event.OutputString (stats env (Setup.Run env State.init).write_counter)]) ∧
      (env.DoSetup d = false →
        (RunGen env args).trace = [Event.DoSetup d] ∧ (RunGen env args).state = State.init) ∧
      (env.DoSetup d = true →
        (Setup.Run env State.init).fatal = true ∨ env.Run = false →
        (RunGen env args).trace = [Event.DoSetup d, Event.set_resolved_callback, Event.Run]) ∧
      (env.DoSetup d = true → (Setup.Run env State.init).fatal = false → env.Run = true →
        env.RunAndWriteFiles = false →
        (RunGen env args).trace =
          [Event.DoSetup d, Event.set_resolved_callback, Event.Run, Event.RunAndWriteFiles]) ∧
      (env.DoSetup d = true → (Setup.Run env State.init).fatal = false → env.Run = true →
        env.RunAndWriteFiles = true → HasSwitch env.switches kSwitchQuiet = false →
        (RunGen env args).trace =
          [Event.DoSetup d, Event.set_resolved_callback, Event.Run, Event.RunAndWriteFiles,
           Event.OutputString "Done. ",
           Event.OutputString (stats env (Setup.Run env State.init).write_counter)] ∧
        (RunGen env args).exit_code = some 0) ∧
      (env.DoSetup d = true → (Setup.Run env State.init).fatal = false → env.Run = true →
        env.RunAndWriteFiles = true → HasSwitch env.switches kSwitchQuiet = true →
        (RunGen env args).trace =
          [Event.DoSetup d, Event.set_resolved_callback, Event.Run, Event.RunAndWriteFiles] ∧
        (RunGen env args).exit_code = some 0) ∧
      (env.DoSetup d = true → (RunGen env args).state = Setup.Run env State.init)) ∧
    (∀ text, Event.OutputString text ∈ (RunGen env args).trace →
      (RunGen env args).exit_code = some 0) := by
  cases args with
  | nil => simp [RunGen]
  | cons d rest =>
    cases rest with
    | cons d2 rest2 => simp [RunGen]
    | nil =>
      cases h1 : env.DoSetup d <;> cases h2 : (Setup.Run env State.init).fatal <;>
        cases h3 : env.Run <;> cases h4 : env.RunAndWriteFiles <;>
        cases h5 : HasSwitch env.switches kSwitchQuiet <;>
        simp [RunGen, h1, h2, h3, h4, h5]

/-- C7 witness: the run of `sampleEnv`, where every stage succeeds and the quiet
switch is not set, makes all four calls and then prints the summary; with no
argument nothing but the error message happens. -/
theorem RunGen_stage_order_witness :
    (RunGen sampleEnv ["out/foo"]).trace =
      [Event.DoSetup "out/foo", Event.set_resolved_callback, Event.Run,
       Event.RunAndWriteFiles, Event.OutputString "Done. ",
       Event.OutputString "Wrote 3 targets from 3 files in 12ms\n"] ∧
    (RunGen sampleEnv ["out/foo"]).exit_code = some 0 ∧
    (RunGen sampleEnv []).trace =
      [Event.PrintToStdout "Need exactly one build directory to generate."
        "I expected something more like \"gn gen out/foo\"\nYou can also see \"gn help gen\"."] ∧
    (RunGen sampleEnv []).state = State.init :=
  have h := RunGen_stage_order sampleEnv ["out/foo"]
  have h0 := RunGen_stage_order sampleEnv []
  have hs := (h.2.1 "out/foo" rfl).2.2.2.2.1 rfl (by decide) rfl rfl (by decide)
  ⟨hs.1, hs.2, (h0.1 (by decide)).1, (h0.1 (by decide)).2.2.2⟩

/-- C8: two runs of `RunGen` that differ only in the switches, the quiet switch
set in one and not in the other, return the same exit code, make the same calls
in the same order and leave the same state; the quiet run never calls
`OutputString`; the other run, when it returns 0, makes the calls of the quiet
run followed by one `OutputString("Done. ")` and one `OutputString(stats)`. -/
theorem RunGen_quiet (env : Env) (args : List String) (quiet loud : List String)
    (hq : HasSwitch quiet kSwitchQuiet = true) (hl : HasSwitch loud kSwitchQuiet = false) :
    (RunGen { env with switches := quiet } args).exit_code =
      (RunGen { env with switches := loud } args).exit_code ∧
    (RunGen { env with switches := quiet } args).trace =
      (RunGen { env with switches := loud } args).trace.filter (fun e => !e.isOutputString) ∧
    (RunGen { env with switches := quiet } args).state =
      (RunGen { env with switches := loud } args).state ∧
    (∀ text, Event.OutputString text ∉ (RunGen { env with switches := quiet } args).trace) ∧
    ((RunGen { env with switches := loud } args).exit_code = some 0 →
      (RunGen { env with switches := loud } args).trace =
        (RunGen { env with switches := quiet } args).trace ++
          [Event.OutputString "Done. ",
           Event.OutputString (stats env (RunGen { env with switches := loud } args).state.write_counter)] ∧
      (RunGen { env with switches := loud } args).trace.countP Event.isOutputString = 2) ∧
    ((RunGen { env with switches := loud } args).exit_code ≠ some 0 →
      (RunGen { env with switches := loud } args).trace =
        (RunGen { env with switches := quiet } args).trace) := by
  cases args with
  | nil => simp [RunGen, Event.isOutputString]
  | cons d rest =>
    cases rest with
    | cons d2 rest2 => simp [RunGen, Event.isOutputString]
    | nil =>
      simp only [RunGen, Setup.Run_switches, stats_switches, hq, hl]
      cases h1 : env.DoSetup d <;> cases h2 : (Setup.Run env State.init).fatal <;>
        cases h3 : env.Run <;> cases h4 : env.RunAndWriteFiles <;>
        simp [Event.isOutputString, List.countP_cons]

/-- C8 witness: `sampleEnv` with and without the switch `q`. -/
theorem RunGen_quiet_witness :
    (RunGen { sampleEnv with switches := ["q"] } ["out/foo"]).exit_code = some 0 ∧
    (RunGen { sampleEnv with switches := [] } ["out/foo"]).exit_code = some 0 ∧
    (RunGen { sampleEnv with switches := ["q"] } ["out/foo"]).trace =
      [Event.DoSetup "out/foo", Event.set_resolved_callback, Event.Run,
       Event.RunAndWriteFiles] ∧
    (RunGen { sampleEnv with switches := [] } ["out/foo"]).trace.countP
      Event.isOutputString = 2 := by
  have h := RunGen_quiet sampleEnv ["out/foo"] ["q"] [] (by decide) (by decide)
  have h0 : (RunGen { sampleEnv with switches := [] } ["out/foo"]).exit_code = some 0 := by
    decide
  exact ⟨h.1.trans h0, h0, by decide, (h.2.2.2.2.1 h0).2⟩

/-! ## The summary line -/

theorem execOps_job (env : Env) (s : State) (job : List Op) (hok : jobOk job)
    (hlive : s.fatal = false) :
    (execOps env s job).write_counter = s.write_counter ∧
    (execOps env s job).fatal = false ∧
    (execOps env s job).jobs = s.jobs := by
  rcases hok with hok | hok | ⟨t, tc, hok⟩
  · subst hok
    exact ⟨rfl, hlive, rfl⟩
  · subst hok
    simp [execOps, execOp, hlive]
  · subst hok
    refine ⟨?_, ?_, ?_⟩ <;>
      simp only [BackgroundDoWrite, execOps, execOp, DecrementWorkCount] <;>
      split <;> simp [hlive]

theorem finishJob_spec (env : Env) (s : State) (i : Nat)
    (hjobs : ∀ job ∈ s.jobs, jobOk job) (hlive : s.fatal = false) :
    (finishJob env s i).write_counter = s.write_counter ∧
    (finishJob env s i).fatal = false ∧
    (∀ job ∈ (finishJob env s i).jobs, jobOk job) := by
  unfold finishJob
  split
  · next ops hget =>
    obtain ⟨h1, h2, h3⟩ := execOps_job env { s with jobs := s.jobs.set i [] } ops
      (hjobs ops (List.get?_mem hget)) hlive
    refine ⟨h1, h2, ?_⟩
    rw [h3]
    intro job hjob
    rcases List.mem_or_eq_of_mem_set hjob with hjob | hjob
    · exact hjobs job hjob
    · exact Or.inl hjob
  · exact ⟨rfl, hlive, hjobs⟩

theorem finishJobs_spec (env : Env) (indices : List Nat) (s : State)
    (hjobs : ∀ job ∈ s.jobs, jobOk job) (hlive : s.fatal = false) :
    (indices.foldl (finishJob env) s).write_counter = s.write_counter ∧
    (indices.foldl (finishJob env) s).fatal = false := by
  induction indices generalizing s with
  | nil => exact ⟨rfl, hlive⟩
  | cons i rest ih =>
    obtain ⟨h1, h2, h3⟩ := finishJob_spec env s i hjobs hlive
    obtain ⟨h4, h5⟩ := ih (finishJob env s i) h3 h2
    exact ⟨h4.trans h1, h5⟩

theorem emissionJobs_ok (env : Env) (items : List Item) :
    ∀ job ∈ emissionJobs env items, jobOk job := by
  intro job hjob
  simp only [emissionJobs, List.mem_filterMap] at hjob
  obtain ⟨item, _, hmap⟩ := hjob
  cases hi : item.AsTarget with
  | none => simp [hi] at hmap
  | some t =>
    simp only [hi, Option.map_some', Option.some.injEq] at hmap
    exact Or.inr (Or.inr ⟨t, _, hmap.symm⟩)

/-- The value of `write_counter` when `Setup::Run` returns: the number of items
resolved, targets or not, as a 32-bit integer. -/
theorem Setup.Run_write_counter (env : Env) (h : (Setup.Run env State.init).fatal = false) :
    (Setup.Run env State.init).write_counter = static_cast_int env.resolved.length := by
  have hres : (resolveAll env State.init env.resolved).fatal = false := by
    by_contra hne
    have hf : (resolveAll env State.init env.resolved).fatal = true := by simpa using hne
    simp [Setup.Run, hf] at h
  obtain ⟨hwc, _, hjobs, _⟩ := resolveAll_spec env env.resolved State.init rfl hres
  have hok : ∀ job ∈ (resolveAll env State.init env.resolved).jobs, jobOk job := by
    rw [hjobs]
    exact emissionJobs_ok env env.resolved
  have hwc1 : (resolveAll env State.init env.resolved).write_counter =
      static_cast_int env.resolved.length := by
    rw [hwc]
    split
    · next h0 => rw [h0]; rfl
    · simp [State.init]
  simp only [Setup.Run, hres]
  rw [← hwc1]
  exact (finishJobs_spec env _ _ hok hres).1

/-- The summary of a run that succeeds without the quiet switch reports the
number of items resolved, targets or not. -/
theorem RunGen_summary (env : Env) (build_dir : String)
    (hsetup : env.DoSetup build_dir = true) (hlive : (Setup.Run env State.init).fatal = false)
    (hrun : env.Run = true) (hwrite : env.RunAndWriteFiles = true)
    (hloud : HasSwitch env.switches kSwitchQuiet = false) :
    (RunGen env [build_dir]).trace =
      [Event.DoSetup build_dir, Event.set_resolved_callback, Event.Run,
       Event.RunAndWriteFiles, Event.OutputString "Done. ",
       Event.OutputString ("Wrote " ++ IntToString (static_cast_int env.resolved.length) ++
         " targets from " ++ IntToString env.GetInputFileCount ++ " files in " ++
         IntToString (static_cast_int env.elapsed_ms) ++ "ms\n")] := by
  simp [RunGen, hsetup, hlive, hrun, hwrite, hloud, stats, Setup.Run_write_counter env hlive,
    static_cast_int_idem]

/-- C5 fails on the code: in a successful run without the quiet switch in which
one config and no target is resolved, the summary says "Wrote 1 targets". -/
theorem summary_counts_every_item :
    countTargets (configOnlyEnv sampleEnv).resolved = 0 ∧
    (RunGen (configOnlyEnv sampleEnv) ["out/foo"]).exit_code = some 0 ∧
    (RunGen (configOnlyEnv sampleEnv) ["out/foo"]).state.jobs = [] ∧
    (RunGen (configOnlyEnv sampleEnv) ["out/foo"]).trace =
      [Event.DoSetup "out/foo", Event.set_resolved_callback, Event.Run,
       Event.RunAndWriteFiles, Event.OutputString "Done. ",
       Event.OutputString "Wrote 1 targets from 3 files in 12ms\n"] := by
  decide

end commands
